import Mathlib

/-
Verification of the FBPIC GPU utility layer (fbpic/utils/cuda.py and
fbpic/main.py) against its natural-language specification.

Modelling conventions:
* main.py is Python 2 syntax (`except E, F:`, `xrange`), but utils/cuda.py
  requires Python >= 3.5 (starred unpacking inside a list display at lines
  331-333, two-argument `bytes` at line 302), so in cuda.py `/` on two ints
  is float true division.  It is modelled exactly: a binary64 value is an
  integer significand together with a power-of-two exponent, division and
  addition round the exact rational result to 53 significant bits with
  round-half-to-even, as CPython does.  The exponent range is unbounded
  (no overflow or subnormal handling; faithful for every magnitude these
  functions can meet), and `int()` truncation is modelled for the
  nonnegative values that arise.
* Python dictionaries keyed by `hash(tuple(types))` are modelled by an
  association list keyed by the type tuple itself: the hash of the type
  tuple is a stand-in for the tuple as a key, and hash collisions between
  distinct type tuples are assumed absent.
* Compiled kernel handles (cupy module functions) are modelled by the
  value of the compilation counter at compile time: each compilation
  produces a fresh, distinct handle.
* Exceptions are modelled with `Except`; code paths that cannot raise
  return `Except.ok`.
-/

/-- Element type tag of a device array (`a.dtype` of a cupy array). -/
inductive Dtype
  | float32 | float64 | int32 | int64 | complex64 | complex128 | boolDt
  deriving DecidableEq, Repr

/-- The Python type of a non-array argument (`type(a)`): the recognized
scalar kinds float, int, complex, bool, and any other Python type,
identified by its name. -/
inductive PyType
  | pfloat | pint | pcomplex | pbool
  | other (name : String)
  deriving DecidableEq, Repr

/-- A scalar kernel argument: its Python type together with an abstract
value identifier (the value itself plays no role in dispatch). -/
structure Scalar where
  ty : PyType
  val : Int
  deriving DecidableEq, Repr

/-- A device (cupy) array argument, as far as the dispatch layer reads it:
element dtype, shape, strides, per-element byte width, and an identifier
of the backing storage.  `ndim` and `size` are derived as in cupy. -/
structure NdArray where
  dtype : Dtype
  shape : List Nat
  strides : List Nat
  itemsize : Nat
  handle : Nat
  deriving DecidableEq, Repr

/-- `a.ndim` of a cupy array: the number of dimensions. -/
def NdArray.ndim (a : NdArray) : Nat := a.shape.length

/-- `a.size` of a cupy array: the total element count. -/
def NdArray.size (a : NdArray) : Nat := a.shape.prod

/-- One argument of a kernel call: a scalar or a device array. -/
inductive KernelArg
  | scalar (s : Scalar)
  | array (a : NdArray)
  deriving DecidableEq, Repr

/-- One entry of the type tuple built by `get_args_hash`: `a.dtype` and
`a.ndim` for an array argument, `type(a)` for any other argument. -/
inductive SigItem
  | dt (d : Dtype)
  | dim (n : Nat)
  | ty (t : PyType)
  deriving DecidableEq, Repr

/-- The argument-type signature used as the cache key. -/
abbrev Sig := List SigItem

/-- Embeds `get_args_hash` (fbpic/utils/cuda.py lines 200-227): for each
argument append, in order, the dtype and the number of dimensions if it is
an array, and otherwise its Python type.  The Python `hash(tuple(types))`
key is modelled by the type tuple itself (see the header comment).  Note
that no argument kind is rejected: any non-array argument contributes
`type(a)`. -/
def get_args_hash (args : List KernelArg) : Sig :=
  args.foldl (fun types a =>
    match a with
    | .array arr => types ++ [.dt arr.dtype, .dim arr.ndim]
    | .scalar s => types ++ [.ty s.ty]) []

/-- One slot of the flat marshalled argument list handed to the raw cupy
kernel: a plain integer (placeholders, sizes, extents, strides), the array
object itself, or a scalar passed through unchanged. -/
inductive KernelParam
  | word (n : Nat)
  | arrayRef (a : NdArray)
  | scalarVal (s : Scalar)
  deriving DecidableEq, Repr

/-- The slots contributed by one argument in the marshalling loop of
`call_kernel` (fbpic/utils/cuda.py lines 314-338): for an array, two
zeroes, the total size, the itemsize, the array itself, then the shape
entries, then the stride entries; for anything else, the argument
unchanged. -/
def marshalOne (a : KernelArg) : List KernelParam :=
  match a with
  | .array arr =>
      [.word 0, .word 0, .word arr.size, .word arr.itemsize, .arrayRef arr]
        ++ arr.shape.map .word ++ arr.strides.map .word
  | .scalar s => [.scalarVal s]

/-- Embeds the `kernel_args` construction of `call_kernel`: starting from
the empty list, each argument appends its slots in order. -/
def prepare_kernel_args (args : List KernelArg) : List KernelParam :=
  args.foldl (fun acc a => acc ++ marshalOne a) []

/-- The mutable state of one `compile_cupy` wrapper object: the
signature-keyed kernel dictionary (association list, in insertion order)
and the number of compilations performed so far.  Handles are the value of
`n_compiles` at compile time, so each compilation yields a fresh handle. -/
structure KernelCache where
  kernel_dict : List (Sig × Nat)
  n_compiles : Nat
  deriving DecidableEq, Repr

/-- The state of a freshly constructed `compile_cupy` object: empty
dictionary, no compilations. -/
def initCache : KernelCache := ⟨[], 0⟩

/-- Dictionary lookup (`hash in self.kernel_dict` / `self.kernel_dict[hash]`). -/
def findSig : List (Sig × Nat) → Sig → Option Nat
  | [], _ => none
  | (s, k) :: rest, t => if s = t then some k else findSig rest t

/-- The keys of the kernel dictionary. -/
def dictKeys (d : List (Sig × Nat)) : List Sig := d.map Prod.fst

/-- The cache-consulting core of `call_kernel` (fbpic/utils/cuda.py lines
288-307): compute the signature of the arguments; if it is not in the
dictionary, compile (modelled by incrementing `n_compiles` and binding the
fresh handle under the signature); return the updated state and the handle
that serves the call. -/
def call_kernel_step (st : KernelCache) (args : List KernelArg) :
    KernelCache × Nat :=
  let h := get_args_hash args
  match findSig st.kernel_dict h with
  | some k => (st, k)
  | none =>
      (⟨st.kernel_dict ++ [(h, st.n_compiles)], st.n_compiles + 1⟩,
       st.n_compiles)

/-- The record of the launch performed at the end of `call_kernel` (line
345): the handle called, the blocks-per-grid and threads-per-block tuples,
and the marshalled argument list. -/
structure LaunchRecord where
  handle : Nat
  bpg : List Nat
  tpb : List Nat
  args : List KernelParam
  deriving DecidableEq, Repr

/-- Possible errors of a kernel invocation, as the specification describes
them.  The embedded code itself never raises this (see `call_kernel`). -/
inductive KernelError
  | invalidArgument (msg : String)
  deriving DecidableEq, Repr

/-- Embeds the whole `call_kernel` wrapper (fbpic/utils/cuda.py lines
277-345): hash the argument types, compile on a cache miss, marshal the
arguments, and launch the cached handle.  The result type admits an
invalid-argument error, but no path of the source raises one: the function
always returns `Except.ok`. -/
def call_kernel (st : KernelCache) (bpg tpb : List Nat)
    (args : List KernelArg) :
    Except KernelError (KernelCache × LaunchRecord) :=
  let r := call_kernel_step st args
  .ok (r.1, ⟨r.2, bpg, tpb, prepare_kernel_args args⟩)

/-- A sequence of invocations of one decorated computation through its
cache: threads the state through `call_kernel_step` and records the handle
that served each call. -/
def runCalls (st : KernelCache) : List (List KernelArg) →
    KernelCache × List Nat
  | [] => (st, [])
  | c :: rest =>
      let r := call_kernel_step st c
      let rr := runCalls r.1 rest
      (rr.1, r.2 :: rr.2)

/-- The number of distinct signatures of a call trace that are not among
the `known` keys: the number of compilations the trace adds to a cache
already knowing `known`. -/
def countNew (known : List Sig) : List Sig → Nat
  | [] => 0
  | s :: rest =>
      if s ∈ known then countNew known rest
      else countNew (s :: known) rest + 1

/-- Internal invariant of a kernel cache: dictionary keys are distinct,
compiled handles are distinct, and every handle is below the compilation
counter. -/
def CacheInv (st : KernelCache) : Prop :=
  (dictKeys st.kernel_dict).Nodup
  ∧ (st.kernel_dict.map Prod.snd).Nodup
  ∧ ∀ p ∈ st.kernel_dict, p.2 < st.n_compiles

/-- `natLog2Aux fuel n` computes the floor binary logarithm of `n` by
repeated halving; correct whenever `n ≤ fuel` (structural recursion on the
fuel keeps it kernel-computable). -/
def natLog2Aux : Nat → Nat → Nat
  | 0, _ => 0
  | fuel + 1, n => if 2 ≤ n then natLog2Aux fuel (n / 2) + 1 else 0

/-- The floor binary logarithm: for `n ≥ 1` the unique `L` with
`2^L ≤ n < 2^(L+1)`. -/
def natLog2 (n : Nat) : Nat := natLog2Aux n n

/-- Whether `2^e ≤ a / b` for the exact rational `a / b`, written with
integer arithmetic only. -/
def le2pow (a b : Nat) (e : Int) : Bool :=
  if 0 ≤ e then b * 2 ^ e.toNat ≤ a else b ≤ a * 2 ^ (-e).toNat

/-- Round the exact positive rational `a / b` to the nearest binary64
value (53 significant bits, round half to even, unbounded exponent
range), returned as an integer significand `m ∈ [2^52, 2^53]` and an
exponent `t` with value `m * 2^t`.  This is what CPython's true division
of two positive ints produces.  The binade exponent `e` is located with
`natLog2` and one correction step, then the scaled significand
`(a/b) * 2^(52-e)` is rounded half-to-even using integer division. -/
def roundFrac (a b : Nat) : Nat × Int :=
  let e0 : Int := (natLog2 a : Int) - (natLog2 b : Int)
  let e : Int := if le2pow a b e0 then e0 else e0 - 1
  let s : Int := 52 - e
  let n := if 0 ≤ s then a * 2 ^ s.toNat else a
  let d := if 0 ≤ s then b else b * 2 ^ (-s).toNat
  let qt := n / d
  let r := n % d
  let m := if 2 * r < d then qt
           else if d < 2 * r then qt + 1
           else if qt % 2 = 0 then qt else qt + 1
  (m, e - 52)

/-- Binary64 addition of `1.0` to a nonnegative float `f` (significand,
exponent): form the exact sum as a fraction and round it. -/
def floatAddOne (f : Nat × Int) : Nat × Int :=
  if 0 ≤ f.2 then roundFrac (f.1 * 2 ^ f.2.toNat + 1) 1
  else roundFrac (f.1 + 2 ^ (-f.2).toNat) (2 ^ (-f.2).toNat)

/-- Python `int()` of a nonnegative float: truncation (= floor). -/
def floatTrunc (f : Nat × Int) : Nat :=
  if 0 ≤ f.2 then f.1 * 2 ^ f.2.toNat else f.1 / 2 ^ (-f.2).toNat

/-- Embeds `cuda_tpb_bpg_1d` (fbpic/utils/cuda.py lines 37-59):
`BPG = int(x/TPB + 1)`, where `/` is Python 3 float true division: the
exact quotient is rounded to binary64, `1.0` is added with another
rounding, and the result is truncated to an int.  Defined for the
positive `TPB` of the documented contract (Python raises
`ZeroDivisionError` on `TPB = 0`). -/
def cuda_tpb_bpg_1d (x : Nat) (TPB : Nat := 256) : Nat × Nat :=
  (floatTrunc (floatAddOne (roundFrac x TPB)), TPB)

/-- Embeds `cuda_tpb_bpg_2d` (fbpic/utils/cuda.py lines 61-84): the same
rule applied independently per axis. -/
def cuda_tpb_bpg_2d (x y : Nat) (TPBx : Nat := 1) (TPBy : Nat := 128) :
    (Nat × Nat) × (Nat × Nat) :=
  ((floatTrunc (floatAddOne (roundFrac x TPBx)),
    floatTrunc (floatAddOne (roundFrac y TPBy))), (TPBx, TPBy))

/-- One particle species, as far as the residency layer reads it: its
`use_cuda` flag and its residency flag `data_is_on_gpu`. -/
structure Species where
  use_cuda : Bool
  data_is_on_gpu : Bool
  deriving DecidableEq, Repr

/-- The field structure, as far as the residency layer reads it: its
residency flag `data_is_on_gpu`. -/
structure FieldsT where
  data_is_on_gpu : Bool
  deriving DecidableEq, Repr

/-- The simulation aggregate set handed to the residency layer: the
`use_cuda` flag, the particle species list `ptcl`, and the field
structure `fld`. -/
structure SimState where
  use_cuda : Bool
  ptcl : List Species
  fld : FieldsT
  deriving DecidableEq, Repr

/-- Modelled from the spec: `Particles.send_particles_to_gpu` is not under
src/ (only its callers are).  Per the specification of *send-to-device*
(spec 3 ResidencyFlag and 4.4): if the residency flag is false, transfer
the backing storage to the device and set the flag true; if already
resident, skip the transfer.  Returns the updated species and the number
of underlying bulk transfers performed (0 or 1). -/
def send_particles_to_gpu (s : Species) : Species × Nat :=
  if s.data_is_on_gpu then (s, 0) else ({ s with data_is_on_gpu := true }, 1)

/-- Modelled from the spec: `Particles.receive_particles_from_gpu` is not
under src/.  Per the specification of *receive-from-device*: if the
residency flag is true, transfer the backing storage back to the host and
set the flag false; otherwise skip.  Returns the updated species and the
transfer count. -/
def receive_particles_from_gpu (s : Species) : Species × Nat :=
  if s.data_is_on_gpu then ({ s with data_is_on_gpu := false }, 1) else (s, 0)

/-- Modelled from the spec: `Fields.send_fields_to_gpu` is not under src/.
Same *send-to-device* contract as for species. -/
def send_fields_to_gpu (f : FieldsT) : FieldsT × Nat :=
  if f.data_is_on_gpu then (f, 0) else ({ data_is_on_gpu := true }, 1)

/-- Modelled from the spec: `Fields.receive_fields_from_gpu` is not under
src/.  Same *receive-from-device* contract as for species. -/
def receive_fields_from_gpu (f : FieldsT) : FieldsT × Nat :=
  if f.data_is_on_gpu then ({ data_is_on_gpu := false }, 1) else (f, 0)

/-- The per-species body of the loop in `send_data_to_gpu`
(fbpic/utils/cuda.py lines 103-105): send only the species whose
`use_cuda` flag is set. -/
def send_species (s : Species) : Species × Nat :=
  if s.use_cuda then send_particles_to_gpu s else (s, 0)

/-- The per-species body of the loop in `receive_data_from_gpu`
(fbpic/utils/cuda.py lines 122-124). -/
def receive_species (s : Species) : Species × Nat :=
  if s.use_cuda then receive_particles_from_gpu s else (s, 0)

/-- Embeds `send_data_to_gpu` (fbpic/utils/cuda.py lines 90-107): send
each species with `use_cuda` set, then send the fields.  Returns the
updated simulation and the total number of underlying bulk transfers. -/
def send_data_to_gpu (sim : SimState) : SimState × Nat :=
  let results := sim.ptcl.map send_species
  let fr := send_fields_to_gpu sim.fld
  ({ sim with ptcl := results.map Prod.fst, fld := fr.1 },
   (results.map Prod.snd).sum + fr.2)

/-- Embeds `receive_data_from_gpu` (fbpic/utils/cuda.py lines 109-126). -/
def receive_data_from_gpu (sim : SimState) : SimState × Nat :=
  let results := sim.ptcl.map receive_species
  let fr := receive_fields_from_gpu sim.fld
  ({ sim with ptcl := results.map Prod.fst, fld := fr.1 },
   (results.map Prod.snd).sum + fr.2)

/-- Embeds `GpuMemoryManager.__init__` (fbpic/utils/cuda.py lines
134-149): record the current residency flag of the fields and of every
species, without changing anything. -/
def gmm_init (sim : SimState) : Bool × List Bool :=
  (sim.fld.data_is_on_gpu, sim.ptcl.map (fun s => s.data_is_on_gpu))

/-- Embeds `GpuMemoryManager.__enter__` (fbpic/utils/cuda.py lines
151-160): when `sim.use_cuda`, send the fields if they were recorded as
host-resident, and send each species recorded as host-resident. -/
def gmm_enter (saved : Bool × List Bool) (sim : SimState) : SimState :=
  if sim.use_cuda then
    { sim with
      fld := if saved.1 then sim.fld else (send_fields_to_gpu sim.fld).1,
      ptcl := (sim.ptcl.zip saved.2).map (fun p =>
        if p.2 then p.1 else (send_particles_to_gpu p.1).1) }
  else sim

/-- Embeds `GpuMemoryManager.__exit__` (fbpic/utils/cuda.py lines
162-171): when `sim.use_cuda`, receive the fields if they were recorded as
host-resident, and receive each species recorded as host-resident.  The
exception information `exc` is ignored, and the method returns `None`
(modelled as the Boolean `false`), so an in-scope exception is never
suppressed. -/
def gmm_exit (saved : Bool × List Bool) (sim : SimState)
    (exc : Option String) : SimState × Bool :=
  (if sim.use_cuda then
    { sim with
      fld := if saved.1 then sim.fld else (receive_fields_from_gpu sim.fld).1,
      ptcl := (sim.ptcl.zip saved.2).map (fun p =>
        if p.2 then p.1 else (receive_particles_from_gpu p.1).1) }
  else sim, false)

/-- Python `with GpuMemoryManager(sim): body` semantics: record residency,
enter, run the body (which returns the new simulation state and possibly
an exception), exit unconditionally, and propagate the body exception
unless `__exit__` returned a truthy value. -/
def with_gpu_manager (sim : SimState)
    (body : SimState → SimState × Option String) : SimState × Option String :=
  let saved := gmm_init sim
  let s1 := gmm_enter saved sim
  let r := body s1
  let e := gmm_exit saved r.1 r.2
  (e.1, if e.2 then none else r.2)

/-- The loop body of `mpi_select_gpus`, iterating over the remaining
device indices and accumulating the devices selected so far.  Each
iteration evaluates `rank % n_gpus`, whose Python `ZeroDivisionError`
would surface as an error. -/
def select_gpu_loop (n_gpus rank : Nat) :
    List Nat → List Nat → Except String (List Nat)
  | [], acc => .ok acc
  | i :: rest, acc =>
      if n_gpus = 0 then .error "ZeroDivisionError"
      else if rank % n_gpus = i then
        select_gpu_loop n_gpus rank rest (acc ++ [i])
      else select_gpu_loop n_gpus rank rest acc

/-- Embeds `mpi_select_gpus` (fbpic/utils/cuda.py lines 178-191), with the
externally supplied device count and process rank as inputs: loop over
`range n_gpus` and select the index equal to `rank % n_gpus`.  Returns the
list of device indices selected, in order; note the loop body never runs
when `n_gpus = 0`. -/
def mpi_select_gpus (n_gpus rank : Nat) : Except String (List Nat) :=
  select_gpu_loop n_gpus rank (List.range n_gpus) []

/-- One unit of work dispatched by `Simulation.deposit`, in dispatch
order.  The string is the fieldtype designation passed to the callee. -/
inductive DepositOp
  | erase (f : String)
  | species_deposit (f : String)
  | antenna_deposit (f : String)
  | divide_by_volume (f : String)
  | exchange_fields (f : String)
  | interp2spect (f : String)
  | filter_spect (f : String)
  deriving DecidableEq, Repr

/-- Embeds `Simulation.deposit` (fbpic/main.py lines 344-394) as the trace
of operations it dispatches, for a simulation with `n_species` particle
species, `n_antennas` laser antennas and the given `filter_currents` flag.
For a charge fieldtype it erases rho, deposits every species and antenna,
divides by volume, exchanges guard cells, then transforms (and optionally
filters) on the spectral grid; for the current fieldtype the same with J
(with the antenna deposition called with the rho designation, as in the
source line 383); any other fieldtype raises
`ValueError('Unknown fieldtype: %s' % fieldtype)` before any work is
dispatched. -/
def deposit (fieldtype : String) (n_species n_antennas : Nat)
    (filter_currents : Bool) : Except String (List DepositOp) :=
  if fieldtype = "rho_prev" ∨ fieldtype = "rho_next" then
    .ok ([.erase "rho"]
      ++ (List.range n_species).map (fun _ => .species_deposit "rho")
      ++ (List.range n_antennas).map (fun _ => .antenna_deposit "rho")
      ++ [.divide_by_volume "rho", .exchange_fields "rho",
          .interp2spect fieldtype]
      ++ (if filter_currents then [.filter_spect fieldtype] else []))
  else if fieldtype = "J" then
    .ok ([.erase "J"]
      ++ (List.range n_species).map (fun _ => .species_deposit "J")
      ++ (List.range n_antennas).map (fun _ => .antenna_deposit "rho")
      ++ [.divide_by_volume "J", .exchange_fields "J",
          .interp2spect fieldtype]
      ++ (if filter_currents then [.filter_spect fieldtype] else []))
  else
    .error ("Unknown fieldtype: " ++ fieldtype)

/-- A concrete scalar argument (a Python float), used as test input. -/
def argA : KernelArg := .scalar ⟨.pfloat, 0⟩

/-- A concrete rank-1 float64 array argument, used as test input. -/
def argB : KernelArg := .array ⟨.float64, [4], [8], 8, 0⟩

/-- A concrete argument whose kind is neither a recognized scalar kind nor
an array (a Python dict), used as test input. -/
def badArg : KernelArg := .scalar ⟨.other "dict", 0⟩

/-- A concrete simulation aggregate set used as test input: one
host-resident species, one device-resident species, host-resident
fields. -/
def simEx : SimState := ⟨true, [⟨true, false⟩, ⟨true, true⟩], ⟨false⟩⟩

/-- The fuel-based logarithm is the floor binary logarithm once the fuel
dominates the argument. -/
lemma natLog2Aux_correct : ∀ (fuel n : Nat), 1 ≤ n → n ≤ fuel →
    2 ^ natLog2Aux fuel n ≤ n ∧ n < 2 ^ (natLog2Aux fuel n + 1) := by
  intro fuel
  induction fuel with
  | zero => intro n h1 h2; omega
  | succ f ih =>
    intro n h1 h2
    by_cases h : 2 ≤ n
    · have hd1 : 1 ≤ n / 2 := by omega
      have hd2 : n / 2 ≤ f := by omega
      obtain ⟨hl, hr⟩ := ih (n / 2) hd1 hd2
      simp only [natLog2Aux, if_pos h]
      constructor
      · rw [pow_succ]
        omega
      · rw [pow_succ]
        omega
    · simp only [natLog2Aux, if_neg h, pow_zero, pow_one]
      omega

/-- `natLog2` brackets its positive argument between consecutive powers
of two. -/
lemma natLog2_bounds (n : Nat) (h : 1 ≤ n) :
    2 ^ natLog2 n ≤ n ∧ n < 2 ^ (natLog2 n + 1) :=
  natLog2Aux_correct n n h le_rfl

/-- The floor binary logarithm is determined by its bracketing. -/
lemma natLog2_unique (n L : Nat) (h1 : 2 ^ L ≤ n) (h2 : n < 2 ^ (L + 1)) :
    natLog2 n = L := by
  have h1n : (1:ℕ) ≤ 2 ^ L := Nat.one_le_two_pow
  obtain ⟨hl, hr⟩ := natLog2_bounds n (by omega)
  rcases Nat.lt_trichotomy (natLog2 n) L with hlt | heq | hgt
  · have : (2:ℕ) ^ (natLog2 n + 1) ≤ 2 ^ L := Nat.pow_le_pow_right (by omega) (by omega)
    omega
  · exact heq
  · have : (2:ℕ) ^ (L + 1) ≤ 2 ^ natLog2 n := Nat.pow_le_pow_right (by omega) (by omega)
    omega

/-- Multiplying by a power of two shifts the binary logarithm. -/
lemma natLog2_mul_pow (c i : Nat) (hc : 0 < c) :
    natLog2 (c * 2 ^ i) = natLog2 c + i := by
  obtain ⟨hl, hr⟩ := natLog2_bounds c hc
  refine natLog2_unique _ _ ?_ ?_
  · rw [pow_add]
    exact Nat.mul_le_mul_right _ hl
  · rw [show natLog2 c + i + 1 = natLog2 c + 1 + i by omega, pow_add]
    exact Nat.mul_lt_mul_of_lt_of_le hr (le_refl _) (Nat.one_le_two_pow)

/-- The binary logarithm of a power of two is its exponent. -/
lemma natLog2_two_pow (j : Nat) : natLog2 (2 ^ j) = j := by
  have h := natLog2_mul_pow 1 j (by omega)
  have h1 : natLog2 1 = 0 := rfl
  rw [one_mul, h1] at h
  omega

/-- A value below `2^53` has binary logarithm at most 52. -/
lemma natLog2_le_52 (x : Nat) (hx : 0 < x) (hlt : x < 2 ^ 53) :
    natLog2 x ≤ 52 := by
  obtain ⟨hl, _⟩ := natLog2_bounds x hx
  by_contra h
  have : (2:ℕ) ^ 53 ≤ 2 ^ natLog2 x := Nat.pow_le_pow_right (by omega) (by omega)
  omega

/-- The binade test of `roundFrac` succeeds at the exponent computed from
the logarithms of a dyadic fraction. -/
lemma le2pow_dyadic (c i j : Nat) (hc : 0 < c) :
    le2pow (c * 2 ^ i) (2 ^ j) (((natLog2 c + i : ℕ) : Int) - (j : Int))
      = true := by
  obtain ⟨hcl, _⟩ := natLog2_bounds c hc
  rw [le2pow]
  by_cases hs : 0 ≤ ((natLog2 c + i : ℕ) : Int) - (j : Int)
  · rw [if_pos hs]
    have htn : (((natLog2 c + i : ℕ) : Int) - (j : Int)).toNat
        = natLog2 c + i - j := by omega
    rw [htn]
    simp only [decide_eq_true_eq]
    have hpow : (2:ℕ) ^ j * 2 ^ (natLog2 c + i - j) = 2 ^ natLog2 c * 2 ^ i := by
      rw [← pow_add, ← pow_add]
      congr 1
      omega
    rw [hpow]
    exact Nat.mul_le_mul_right _ hcl
  · rw [if_neg hs]
    have htn : (-(((natLog2 c + i : ℕ) : Int) - (j : Int))).toNat
        = j - (natLog2 c + i) := by omega
    rw [htn]
    simp only [decide_eq_true_eq]
    calc (2:ℕ) ^ j = 2 ^ natLog2 c * 2 ^ i * 2 ^ (j - (natLog2 c + i)) := by
          rw [mul_assoc, ← pow_add, ← pow_add]
          congr 1
          omega
      _ ≤ c * 2 ^ i * 2 ^ (j - (natLog2 c + i)) := by
          refine Nat.mul_le_mul_right _ ?_
          exact Nat.mul_le_mul_right _ hcl

/-- Rounding a dyadic fraction whose reduced numerator is below `2^53` is
exact: `roundFrac` returns the 53-bit normalization of `c * 2^(i-j)`. -/
lemma roundFrac_dyadic_lt (c i j : Nat) (hc : 0 < c) (hij : i ≤ j)
    (hlt : c < 2 ^ 53) :
    roundFrac (c * 2 ^ i) (2 ^ j)
      = (c * 2 ^ (52 - natLog2 c), ((natLog2 c + i : ℕ) : Int) - j - 52) := by
  have hC52 := natLog2_le_52 c hc hlt
  have hA : natLog2 (c * 2 ^ i) = natLog2 c + i := natLog2_mul_pow c i hc
  have hB : natLog2 (2 ^ j) = j := natLog2_two_pow j
  simp only [roundFrac, hA, hB, le2pow_dyadic c i j hc, if_true]
  have hs : (0:Int) ≤ 52 - (((natLog2 c + i : ℕ) : Int) - (j : Int)) := by omega
  rw [if_pos hs, if_pos hs]
  have htn : ((52:Int) - (((natLog2 c + i : ℕ) : Int) - (j : Int))).toNat
      = 52 - natLog2 c + (j - i) := by omega
  rw [htn]
  have hn : c * 2 ^ i * 2 ^ (52 - natLog2 c + (j - i))
      = c * 2 ^ (52 - natLog2 c) * 2 ^ j := by
    rw [mul_assoc, mul_assoc, ← pow_add, ← pow_add]
    congr 2
    omega
  rw [hn, Nat.mul_div_cancel _ (Nat.pos_pow_of_pos j (by omega)),
    Nat.mul_mod_left]
  have hd : 0 < (2:ℕ) ^ j := Nat.pos_pow_of_pos j (by omega)
  rw [if_pos (by omega : 2 * 0 < (2:ℕ) ^ j)]

/-- Rounding a dyadic fraction whose reduced numerator is exactly `2^53`
rounds the tie to the even `2^52` in the next binade: the value is
preserved. -/
lemma roundFrac_dyadic_top (i j : Nat) (hij : i ≤ j) :
    roundFrac (2 ^ 53 * 2 ^ i) (2 ^ j) = (2 ^ 52, 1 + (i : Int) - j) := by
  have hA : natLog2 (2 ^ 53 * 2 ^ i) = 53 + i := by
    rw [natLog2_mul_pow _ i (Nat.pos_pow_of_pos 53 (by omega)), natLog2_two_pow]
  have hB : natLog2 (2 ^ j) = j := natLog2_two_pow j
  have hle := le2pow_dyadic (2 ^ 53) i j (Nat.pos_pow_of_pos 53 (by omega))
  rw [natLog2_two_pow] at hle
  simp only [roundFrac, hA, hB, hle, if_true]
  by_cases hij2 : i < j
  · have hs : (0:Int) ≤ 52 - (((53 + i : ℕ) : Int) - (j : Int)) := by omega
    rw [if_pos hs, if_pos hs]
    have htn : ((52:Int) - (((53 + i : ℕ) : Int) - (j : Int))).toNat
        = j - i - 1 := by omega
    rw [htn]
    have hn : (2:ℕ) ^ 53 * 2 ^ i * 2 ^ (j - i - 1) = 2 ^ 52 * 2 ^ j := by
      rw [mul_assoc, ← pow_add, ← pow_add, ← pow_add]
      congr 1
      omega
    rw [hn, Nat.mul_div_cancel _ (Nat.pos_pow_of_pos j (by omega)),
      Nat.mul_mod_left]
    have hd : 0 < (2:ℕ) ^ j := Nat.pos_pow_of_pos j (by omega)
    rw [if_pos (by omega : 2 * 0 < (2:ℕ) ^ j)]
    simp only [Prod.mk.injEq]
    exact ⟨trivial, by omega⟩
  · have hij3 : i = j := by omega
    subst hij3
    have hs : ¬ (0:Int) ≤ 52 - (((53 + i : ℕ) : Int) - (i : Int)) := by omega
    rw [if_neg hs, if_neg hs]
    have htn : (-((52:Int) - (((53 + i : ℕ) : Int) - (i : Int)))).toNat = 1 := by
      omega
    rw [htn]
    have hn : (2:ℕ) ^ 53 * 2 ^ i = 2 ^ 52 * (2 ^ i * 2 ^ 1) := by
      rw [← pow_add, ← pow_add, ← pow_add]
      congr 1
      omega
    rw [hn, Nat.mul_div_cancel _ (by positivity), Nat.mul_mod_left]
    have hd : 0 < (2:ℕ) ^ i * 2 ^ 1 := by positivity
    rw [if_pos (by omega : 2 * 0 < (2:ℕ) ^ i * 2 ^ 1)]
    simp only [Prod.mk.injEq]
    exact ⟨trivial, by omega⟩

/-- Adding `1.0` to the rounded representation of `x / 2^k` (host value
below `2^53`) forms exactly the dyadic fraction `(x + 2^k) / 2^k`, scaled
by the common factor `2^(52 - natLog2 x)`. -/
lemma floatAddOne_dyadic (x k : Nat) (hx : 0 < x) (hlt : x < 2 ^ 53) :
    floatAddOne (x * 2 ^ (52 - natLog2 x), ((natLog2 x : ℕ) : Int) - k - 52)
      = roundFrac ((x + 2 ^ k) * 2 ^ (52 - natLog2 x))
          (2 ^ (52 + k - natLog2 x)) := by
  have hL52 := natLog2_le_52 x hx hlt
  simp only [floatAddOne]
  by_cases ht : 0 ≤ ((natLog2 x : ℕ) : Int) - k - 52
  · have hL : natLog2 x = 52 := by omega
    have hk : k = 0 := by omega
    subst hk
    rw [if_pos ht]
    have htn : (((natLog2 x : ℕ) : Int) - (0:ℕ) - 52).toNat = 0 := by omega
    rw [htn, hL]
    norm_num
  · rw [if_neg ht]
    have htn : (-(((natLog2 x : ℕ) : Int) - k - 52)).toNat
        = 52 + k - natLog2 x := by omega
    rw [htn]
    congr 1
    rw [add_mul]
    congr 1
    rw [← pow_add]
    congr 1
    omega

/-- C2 counterexample: the division in `cuda_tpb_bpg_1d` is Python 3
float true division (cuda.py is Python-3.5+-only source), so the claimed
exact formula `BPG = floor(x/TPB) + 1` is false at large inputs: at
`x = 2^53 + 1, TPB = 1` the code returns `2^53`, which differs from
`floor + 1 = 2^53 + 2` and even violates `BPG * TPB ≥ x`; at
`x = 10^17 - 1, TPB = 100` it returns `10^15 + 1 ≠ floor + 1 = 10^15`. -/
theorem cuda_tpb_bpg_1d_float_counterexample :
    cuda_tpb_bpg_1d (2 ^ 53 + 1) 1 = (2 ^ 53, 1)
    ∧ 2 ^ 53 ≠ (2 ^ 53 + 1) / 1 + 1
    ∧ ¬(2 ^ 53 + 1 ≤ 2 ^ 53 * 1)
    ∧ cuda_tpb_bpg_1d (10 ^ 17 - 1) 100 = (10 ^ 15 + 1, 100)
    ∧ 10 ^ 15 + 1 ≠ (10 ^ 17 - 1) / 100 + 1 := by
  refine ⟨by decide, by decide, by decide, by decide, by decide⟩

/-- C2 amended: `cuda_tpb_bpg_1d` computes `BPG = int(x/TPB + 1)` in
binary64 float arithmetic.  Whenever `TPB` is a power of two and
`x + TPB <= 2^53` - which covers every launch configuration the
repository uses (`TPB` of 1, 128 or 256 with realistic unit counts) -
both roundings are exact, so `BPG = floor(x/TPB) + 1` exactly, hence
`BPG * TPB >= x`, including the deliberate extra block at exact multiples
(`x = 256, TPB = 256` yields `BPG = 2`, not 1).  Outside that range the
float roundings can deviate from the exact formula (see the
counterexample). -/
theorem cuda_tpb_bpg_1d_pow2_spec (x TPB k : Nat) (hT : TPB = 2 ^ k)
    (hx : 0 < x) (hbound : x + TPB ≤ 2 ^ 53) :
    (cuda_tpb_bpg_1d x TPB).1 = x / TPB + 1
    ∧ (cuda_tpb_bpg_1d x TPB).2 = TPB
    ∧ x ≤ (x / TPB + 1) * TPB
    ∧ cuda_tpb_bpg_1d 256 256 = (2, 256) := by
  subst hT
  have hk0 : (0:ℕ) < 2 ^ k := Nat.pos_pow_of_pos k (by omega)
  have hxlt : x < 2 ^ 53 := by omega
  have hL52 := natLog2_le_52 x hx hxlt
  refine ⟨?_, rfl, ?_, by decide⟩
  · show floatTrunc (floatAddOne (roundFrac x (2 ^ k))) = x / 2 ^ k + 1
    have e1 : roundFrac x (2 ^ k)
        = (x * 2 ^ (52 - natLog2 x), ((natLog2 x : ℕ) : Int) - k - 52) := by
      have h := roundFrac_dyadic_lt x 0 k hx (Nat.zero_le k) hxlt
      rw [pow_zero, mul_one] at h
      rw [h]
      simp only [Prod.mk.injEq]
      exact ⟨trivial, by omega⟩
    rw [e1, floatAddOne_dyadic x k hx hxlt]
    have hy0 : 0 < x + 2 ^ k := by omega
    have hij : 52 - natLog2 x ≤ 52 + k - natLog2 x := by omega
    rcases Nat.lt_or_ge (x + 2 ^ k) (2 ^ 53) with hylt | hyge
    · have hM52 := natLog2_le_52 (x + 2 ^ k) hy0 hylt
      rw [roundFrac_dyadic_lt (x + 2 ^ k) _ _ hy0 hij hylt]
      simp only [floatTrunc]
      by_cases ht2 : 0 ≤ ((natLog2 (x + 2 ^ k) + (52 - natLog2 x) : ℕ) : Int)
          - ((52 + k - natLog2 x : ℕ) : Int) - 52
      · have hM : natLog2 (x + 2 ^ k) = 52 := by omega
        have hk : k = 0 := by omega
        subst hk
        rw [if_pos ht2]
        have htn : (((natLog2 (x + 2 ^ 0) + (52 - natLog2 x) : ℕ) : Int)
            - ((52 + 0 - natLog2 x : ℕ) : Int) - 52).toNat = 0 := by omega
        rw [htn, hM]
        norm_num
      · rw [if_neg ht2]
        have htn : (-(((natLog2 (x + 2 ^ k) + (52 - natLog2 x) : ℕ) : Int)
            - ((52 + k - natLog2 x : ℕ) : Int) - 52)).toNat
            = 52 - natLog2 (x + 2 ^ k) + k := by omega
        rw [htn]
        have hsplit : (2:ℕ) ^ (52 - natLog2 (x + 2 ^ k) + k)
            = 2 ^ (52 - natLog2 (x + 2 ^ k)) * 2 ^ k := pow_add 2 _ _
        rw [hsplit, mul_comm (x + 2 ^ k) _,
          Nat.mul_div_mul_left _ _ (Nat.pos_pow_of_pos _ (by omega)),
          Nat.add_div_right x hk0]
    · have hyeq : x + 2 ^ k = 2 ^ 53 := by omega
      rw [hyeq, roundFrac_dyadic_top _ _ hij]
      simp only [floatTrunc]
      have hk52 : k ≤ 52 := by
        by_contra hgt
        have : (2:ℕ) ^ 53 ≤ 2 ^ k := Nat.pow_le_pow_right (by omega) (by omega)
        omega
      by_cases ht : 0 ≤ (1:Int) + ((52 - natLog2 x : ℕ) : Int)
          - ((52 + k - natLog2 x : ℕ) : Int)
      · rw [if_pos ht]
        have hk1 : k ≤ 1 := by omega
        have htn : ((1:Int) + ((52 - natLog2 x : ℕ) : Int)
            - ((52 + k - natLog2 x : ℕ) : Int)).toNat = 1 - k := by omega
        rw [htn]
        have hp : (2:ℕ) ^ 53 = 2 ^ 52 * 2 := by rw [pow_succ]
        rcases (by omega : k = 0 ∨ k = 1) with rfl | rfl
        · norm_num
          omega
        · norm_num
          omega
      · rw [if_neg ht]
        have hk2 : 2 ≤ k := by omega
        have htn : (-((1:Int) + ((52 - natLog2 x : ℕ) : Int)
            - ((52 + k - natLog2 x : ℕ) : Int))).toNat = k - 1 := by omega
        rw [htn]
        have hdiv : (2:ℕ) ^ 52 / 2 ^ (k - 1) = 2 ^ (53 - k) := by
          rw [Nat.pow_div (by omega) (by omega)]
          congr 1
          omega
        rw [hdiv]
        have hx_eq : x = 2 ^ 53 - 2 ^ k := by omega
        have h1 : (2:ℕ) ^ 53 = 2 ^ (53 - k) * 2 ^ k := by
          rw [← pow_add]
          congr 1
          omega
        have hfac : (2:ℕ) ^ 53 - 2 ^ k = (2 ^ (53 - k) - 1) * 2 ^ k := by
          rw [Nat.sub_mul, one_mul, ← h1]
        rw [hx_eq, hfac, Nat.mul_div_cancel _ hk0]
        have h1p : (1:ℕ) ≤ 2 ^ (53 - k) := Nat.one_le_two_pow
        omega
  · exact Nat.le_of_lt ((Nat.div_lt_iff_lt_mul hk0).mp (Nat.lt_succ_self _))

/-- Witness for the amended C2 at `x = 1000`, `TPB = 256 = 2^8`: the
hypotheses hold and the resolver yields exactly `floor(1000/256) + 1 = 4`
blocks of 256 threads, covering the 1000 units. -/
theorem cuda_tpb_bpg_1d_pow2_spec_witness :
    ((256 = 2 ^ 8 ∧ 0 < 1000 ∧ 1000 + 256 ≤ 2 ^ 53)
      ∧ (cuda_tpb_bpg_1d 1000 256).1 = 1000 / 256 + 1
      ∧ (cuda_tpb_bpg_1d 1000 256).2 = 256
      ∧ 1000 ≤ (1000 / 256 + 1) * 256
      ∧ cuda_tpb_bpg_1d 256 256 = (2, 256)) :=
  ⟨⟨by decide, by decide, by decide⟩,
   cuda_tpb_bpg_1d_pow2_spec 1000 256 8 (by decide) (by decide) (by decide)⟩

/-- C8 counterexample: with zero visible devices, `mpi_select_gpus`
completes normally (the loop over `range 0` never runs): it returns
without raising any error and without selecting any device, contradicting
the claim that a zero device count surfaces a fatal error. -/
theorem mpi_select_gpus_zero_counterexample :
    mpi_select_gpus 0 0 = .ok ([] : List Nat) := rfl

/-- C8 amended: when the visible device count is zero, the device
assignment operation completes without surfacing any error and without
binding any device for the calling process, for every rank; the guard
against this situation lies upstream (device code is only reached when
the accelerator is available). -/
theorem mpi_select_gpus_zero_spec (rank : Nat) :
    mpi_select_gpus 0 rank = .ok ([] : List Nat) := rfl

/-- C9: for every fieldtype other than rho_prev, rho_next and J,
`Simulation.deposit` raises `ValueError('Unknown fieldtype: ...')` and
dispatches no work at all: no erase, no particle or antenna deposition, no
guard-cell exchange and no spectral transform appears in its dispatch
trace, so the field state is unchanged on the error path. -/
theorem deposit_unknown_fieldtype (fieldtype : String)
    (n_species n_antennas : Nat) (filter_currents : Bool)
    (h1 : fieldtype ≠ "rho_prev") (h2 : fieldtype ≠ "rho_next")
    (h3 : fieldtype ≠ "J") :
    deposit fieldtype n_species n_antennas filter_currents
      = .error ("Unknown fieldtype: " ++ fieldtype) := by
  simp [deposit, h1, h2, h3]

/-- Witness for C9 at the unknown fieldtype `"E"`: the hypotheses hold and
the call returns the invalid-argument error with no dispatched work. -/
theorem deposit_unknown_fieldtype_witness :
    (("E" : String) ≠ "rho_prev" ∧ ("E" : String) ≠ "rho_next"
        ∧ ("E" : String) ≠ "J")
    ∧ deposit "E" 1 0 true = .error ("Unknown fieldtype: " ++ "E") :=
  ⟨⟨by decide, by decide, by decide⟩,
   deposit_unknown_fieldtype "E" 1 0 true (by decide) (by decide) (by decide)⟩

/-- The marshalling fold appends each argument's slots to the
accumulator. -/
lemma foldl_marshal_eq (l : List KernelArg) (acc : List KernelParam) :
    l.foldl (fun acc a => acc ++ marshalOne a) acc
      = acc ++ l.flatMap marshalOne := by
  induction l generalizing acc with
  | nil => simp
  | cons a t ih => simp [ih, List.append_assoc]

/-- C3: the marshalled kernel argument list is the in-order concatenation
of each argument's slots; a scalar contributes itself unchanged in its
original position; an array contributes, in order, two placeholder slots
of value 0, its total element count, its per-element byte width, the array
handle itself, then every dimension extent, then every dimension stride —
`5 + 2 * rank` slots when the stride and shape tuples both have `rank`
entries.  The array slot holds the array value itself, so storage is
neither mutated nor copied. -/
theorem prepare_kernel_args_spec (args : List KernelArg) :
    prepare_kernel_args args = args.flatMap marshalOne
    ∧ (∀ s : Scalar, marshalOne (.scalar s) = [.scalarVal s])
    ∧ (∀ a : NdArray,
        marshalOne (.array a)
          = [.word 0, .word 0, .word a.size, .word a.itemsize, .arrayRef a]
              ++ a.shape.map .word ++ a.strides.map .word)
    ∧ (∀ a : NdArray, a.strides.length = a.shape.length →
        (marshalOne (.array a)).length = 5 + 2 * a.ndim) := by
  refine ⟨?_, fun s => rfl, fun a => rfl, fun a h => ?_⟩
  · simpa using foldl_marshal_eq args []
  · simp [marshalOne, NdArray.ndim, h]
    omega

/-- Witness for C3 at a concrete rank-2 array and a one-scalar,
one-array argument list. -/
theorem prepare_kernel_args_spec_witness :
    (prepare_kernel_args [argA, argB] = [argA, argB].flatMap marshalOne)
    ∧ (([32, 8] : List Nat).length = ([3, 4] : List Nat).length
        ∧ (marshalOne (.array ⟨.float64, [3, 4], [32, 8], 8, 0⟩)).length
            = 5 + 2 * NdArray.ndim ⟨.float64, [3, 4], [32, 8], 8, 0⟩) :=
  ⟨(prepare_kernel_args_spec [argA, argB]).1,
   rfl, (prepare_kernel_args_spec []).2.2.2 ⟨.float64, [3, 4], [32, 8], 8, 0⟩ rfl⟩

/-- With a nonzero device count the selection loop never raises and keeps
exactly the indices equal to `rank % n_gpus`. -/
lemma select_gpu_loop_spec (n r : Nat) (hn : n ≠ 0) (l : List Nat)
    (acc : List Nat) :
    select_gpu_loop n r l acc
      = .ok (acc ++ l.filter (fun i => decide (r % n = i))) := by
  induction l generalizing acc with
  | nil => simp [select_gpu_loop]
  | cons a t ih =>
    rw [select_gpu_loop, if_neg hn]
    by_cases hra : r % n = a
    · rw [if_pos hra, ih]
      simp [List.filter_cons, hra]
    · rw [if_neg hra, ih]
      simp [List.filter_cons, hra]

/-- Filtering the range of `n` by equality with a fixed `a < n` keeps
exactly `[a]`. -/
lemma filter_range_eq_single (n a : Nat) (ha : a < n) :
    (List.range n).filter (fun i => decide (a = i)) = [a] := by
  induction n with
  | zero => omega
  | succ m ih =>
    rw [List.range_succ, List.filter_append]
    by_cases hm : a = m
    · subst hm
      have hz : (List.range a).filter (fun i => decide (a = i)) = [] := by
        refine List.filter_eq_nil_iff.mpr (fun x hx => ?_)
        have : x < a := List.mem_range.mp hx
        simp
        omega
      simp [hz]
    · have ha2 : a < m := by omega
      rw [ih ha2]
      simp [hm]

/-- C6: for every device count `n ≥ 1` and rank `r`, `mpi_select_gpus`
selects exactly the single device `r % n`; with 2 devices, ranks 0..4
select the devices `[0], [1], [0], [1], [0]` (multiset `{0,1,0,1,0}`);
when `P ≥ n` every device index below `n` is used by some rank below `P`,
and when `P ≤ n` distinct ranks below `P` get distinct devices. -/
theorem mpi_select_gpus_spec (n r P : Nat) (hn : 1 ≤ n) :
    mpi_select_gpus n r = .ok [r % n]
    ∧ (List.range 5).map (fun rk => mpi_select_gpus 2 rk)
        = [.ok [0], .ok [1], .ok [0], .ok [1], .ok [0]]
    ∧ (∀ d, d < n → n ≤ P → ∃ rk, rk < P ∧ rk % n = d)
    ∧ (∀ r1 r2, r1 < P → r2 < P → P ≤ n → r1 ≠ r2 → r1 % n ≠ r2 % n) := by
  have hn0 : n ≠ 0 := by omega
  refine ⟨?_, by rfl, fun d hd hP => ⟨d, by omega, Nat.mod_eq_of_lt hd⟩,
    fun r1 r2 h1 h2 hPn hne => ?_⟩
  · rw [mpi_select_gpus, select_gpu_loop_spec n r hn0]
    rw [filter_range_eq_single n (r % n) (Nat.mod_lt _ (by omega))]
    rfl
  · rw [Nat.mod_eq_of_lt (by omega), Nat.mod_eq_of_lt (by omega)]
    exact hne

/-- Witness for C6 at `n = 2`, `r = 3`, `P = 2`: the hypothesis holds and
rank 3 selects exactly device `3 % 2 = 1`. -/
theorem mpi_select_gpus_spec_witness :
    (1 ≤ 2) ∧ mpi_select_gpus 2 3 = .ok [3 % 2] :=
  ⟨by decide, (mpi_select_gpus_spec 2 3 2 (by decide)).1⟩

/-- Sending a host-resident species and then receiving it restores the
species exactly. -/
lemma species_roundtrip (s : Species) (hw : s.data_is_on_gpu = false) :
    (receive_particles_from_gpu (send_particles_to_gpu s).1).1 = s := by
  cases s
  simp_all [send_particles_to_gpu, receive_particles_from_gpu]

/-- Sending host-resident fields and then receiving them restores the
fields exactly. -/
lemma fields_roundtrip (f : FieldsT) (hw : f.data_is_on_gpu = false) :
    (receive_fields_from_gpu (send_fields_to_gpu f).1).1 = f := by
  cases f
  simp_all [send_fields_to_gpu, receive_fields_from_gpu]

/-- The per-species enter/exit round trip of the memory manager is the
identity on the species list. -/
lemma gmm_ptcl_roundtrip (l : List Species) :
    ((((l.zip (l.map (fun s => s.data_is_on_gpu))).map (fun p =>
        if p.2 then p.1 else (send_particles_to_gpu p.1).1)).zip
        (l.map (fun s => s.data_is_on_gpu))).map (fun p =>
        if p.2 then p.1 else (receive_particles_from_gpu p.1).1)) = l := by
  induction l with
  | nil => rfl
  | cons s t ih =>
    simp only [List.map_cons, List.zip_cons_cons, List.map_cons, ih]
    by_cases hw : s.data_is_on_gpu
    · simp [hw]
    · have hw2 : s.data_is_on_gpu = false := by simpa using hw
      simp [hw2, species_roundtrip s hw2]

/-- Entering and exiting the memory manager restores the whole simulation
state, whatever exception information reaches `__exit__`. -/
lemma gmm_roundtrip (sim : SimState) (exc : Option String) :
    (gmm_exit (gmm_init sim) (gmm_enter (gmm_init sim) sim) exc).1 = sim := by
  cases sim with
  | mk uc ptcl fld =>
    by_cases hc : uc
    · simp only [gmm_init, gmm_enter, gmm_exit, hc, if_true]
      refine congrArg₂ (SimState.mk true) ?_ ?_
      · exact gmm_ptcl_roundtrip ptcl
      · by_cases hw : fld.data_is_on_gpu
        · simp [hw]
        · have hw2 : fld.data_is_on_gpu = false := by simpa using hw
          simp [hw2, fields_roundtrip fld hw2]
    · simp [gmm_init, gmm_enter, gmm_exit, hc]

/-- C4: for arbitrary initial residency flags, running the scoped
residency guard — record, acquire, release, with any (or no) exception
raised inside the scope — leaves the residency flag of the fields and of
every species equal to its pre-acquire value: the guard's net residency
effect is zero. -/
theorem gpu_memory_manager_restores (sim : SimState) (exc : Option String) :
    ((gmm_exit (gmm_init sim) (gmm_enter (gmm_init sim) sim) exc).1).fld.data_is_on_gpu
        = sim.fld.data_is_on_gpu
    ∧ ((gmm_exit (gmm_init sim) (gmm_enter (gmm_init sim) sim) exc).1).ptcl.map
          (fun s => s.data_is_on_gpu)
        = sim.ptcl.map (fun s => s.data_is_on_gpu) := by
  rw [gmm_roundtrip sim exc]
  exact ⟨rfl, rfl⟩

/-- C10: the guard's `__exit__` never suppresses an in-scope exception
(it returns a falsy value for every exception), its restoration work does
not depend on the exception, and the `with`-scoped execution propagates
the body's exception unchanged after the exit handler has run. -/
theorem gmm_exit_never_suppresses (saved : Bool × List Bool) (s : SimState)
    (exc : Option String) (sim : SimState)
    (body : SimState → SimState × Option String) :
    (gmm_exit saved s exc).2 = false
    ∧ gmm_exit saved s exc = gmm_exit saved s none
    ∧ (with_gpu_manager sim body).2
        = (body (gmm_enter (gmm_init sim) sim)).2 :=
  ⟨rfl, rfl, rfl⟩

/-- Sending a species that uses the accelerator makes it device-resident,
keeps its `use_cuda` flag, and counts one transfer exactly when it was
host-resident. -/
lemma send_species_char (s : Species) (h : s.use_cuda = true) :
    (send_species s).1.data_is_on_gpu = true
    ∧ (send_species s).1.use_cuda = true
    ∧ (send_species s).2 = (if s.data_is_on_gpu then 0 else 1) := by
  cases s with
  | mk u d =>
    cases d <;> simp_all [send_species, send_particles_to_gpu]

/-- Sending an already device-resident species is the explicit skip: the
species is untouched and no transfer is performed. -/
lemma send_species_resident (s : Species) (h : s.data_is_on_gpu = true) :
    send_species s = (s, 0) := by
  cases s with
  | mk u d =>
    cases u <;> simp_all [send_species, send_particles_to_gpu]

/-- First pass over a species list whose members all use the accelerator:
every resulting species is device-resident with `use_cuda` kept, and the
transfer count is the number of host-resident species. -/
lemma send_ptcl_char (l : List Species) (h : ∀ s ∈ l, s.use_cuda = true) :
    (∀ s ∈ (l.map send_species).map Prod.fst,
        s.data_is_on_gpu = true ∧ s.use_cuda = true)
    ∧ ((l.map send_species).map Prod.snd).sum
        = (l.filter (fun s => !s.data_is_on_gpu)).length := by
  induction l with
  | nil => simp
  | cons s t ih =>
    have hs := send_species_char s (h s (by simp))
    have ht := ih (fun x hx => h x (by simp [hx]))
    refine ⟨?_, ?_⟩
    · intro x hx
      simp only [List.map_cons, List.mem_cons] at hx
      rcases hx with h1 | h1
      · subst h1
        exact ⟨hs.1, hs.2.1⟩
      · exact ht.1 x h1
    · simp only [List.map_cons, List.sum_cons, ht.2, hs.2.2, List.filter_cons]
      cases hd : s.data_is_on_gpu <;> simp [hd] <;> omega

/-- Second pass over a species list whose members are all
device-resident: every species is skipped untouched with zero
transfers. -/
lemma send_ptcl_noop (l : List Species) (h : ∀ s ∈ l, s.data_is_on_gpu = true) :
    l.map send_species = l.map (fun s => (s, 0)) := by
  induction l with
  | nil => rfl
  | cons s t ih =>
    simp only [List.map_cons]
    rw [send_species_resident s (h s (by simp)),
        ih (fun x hx => h x (by simp [hx]))]

/-- C5: over a simulation whose species all use the accelerator, calling
send-to-device twice in a row performs exactly one underlying bulk
transfer per host-resident aggregate, all on the first call: the first
call transfers each host-resident species and the fields if host-resident
(one transfer each, already-resident aggregates skipped) and leaves every
residency flag true; the second call is a no-op that performs zero
transfers and returns the state unchanged. -/
theorem send_data_to_gpu_twice (sim : SimState)
    (h : ∀ s ∈ sim.ptcl, s.use_cuda = true) :
    (send_data_to_gpu sim).2
        = (sim.ptcl.filter (fun s => !s.data_is_on_gpu)).length
            + (if sim.fld.data_is_on_gpu then 0 else 1)
    ∧ (∀ s ∈ (send_data_to_gpu sim).1.ptcl, s.data_is_on_gpu = true)
    ∧ (send_data_to_gpu sim).1.fld.data_is_on_gpu = true
    ∧ send_data_to_gpu (send_data_to_gpu sim).1 = ((send_data_to_gpu sim).1, 0) := by
  have hp := send_ptcl_char sim.ptcl h
  have hfld : (send_fields_to_gpu sim.fld).1.data_is_on_gpu = true
      ∧ (send_fields_to_gpu sim.fld).2
          = (if sim.fld.data_is_on_gpu then 0 else 1) := by
    cases hf : sim.fld.data_is_on_gpu <;>
      simp [send_fields_to_gpu, hf]
  refine ⟨?_, fun s hs => (hp.1 s hs).1, hfld.1, ?_⟩
  · simp only [send_data_to_gpu, hp.2, hfld.2]
  · have hres : ∀ s ∈ (send_data_to_gpu sim).1.ptcl, s.data_is_on_gpu = true :=
      fun s hs => (hp.1 s hs).1
    have hnoop := send_ptcl_noop _ hres
    have hf2 : send_fields_to_gpu (send_data_to_gpu sim).1.fld
        = ((send_data_to_gpu sim).1.fld, 0) := by
      have : (send_data_to_gpu sim).1.fld.data_is_on_gpu = true := hfld.1
      cases hg : (send_data_to_gpu sim).1.fld with
      | mk d => simp_all [send_fields_to_gpu]
    rw [send_data_to_gpu, hnoop, hf2]
    generalize (send_data_to_gpu sim).1 = s1
    cases s1 with
    | mk u p f =>
      have h1 : (Prod.fst ∘ fun s : Species => (s, (0 : Nat))) = id := rfl
      have h2 : (Prod.snd ∘ fun s : Species => (s, (0 : Nat))) = fun _ => 0 := rfl
      simp [List.map_map, h1, h2]

/-- Witness for C5 at the concrete simulation `simEx` (one host-resident
species, one device-resident species, host-resident fields): the
hypothesis holds, the first call performs 2 transfers, and the second
call is a no-op with 0 transfers. -/
theorem send_data_to_gpu_twice_witness :
    (∀ s ∈ simEx.ptcl, s.use_cuda = true)
    ∧ (send_data_to_gpu simEx).2 = 2
    ∧ send_data_to_gpu (send_data_to_gpu simEx).1
        = ((send_data_to_gpu simEx).1, 0) :=
  ⟨by decide, by decide, (send_data_to_gpu_twice simEx (by decide)).2.2.2⟩

/-- A successful dictionary lookup exhibits a binding in the dictionary. -/
lemma findSig_mem : ∀ {d : List (Sig × Nat)} {s : Sig} {k : Nat},
    findSig d s = some k → (s, k) ∈ d := by
  intro d
  induction d with
  | nil => intro s k h; simp [findSig] at h
  | cons p t ih =>
    intro s k h
    obtain ⟨a, b⟩ := p
    rw [findSig] at h
    by_cases ha : a = s
    · rw [if_pos ha] at h
      cases h
      subst ha
      exact List.mem_cons_self _ _
    · rw [if_neg ha] at h
      exact List.mem_cons_of_mem _ (ih h)

/-- A failing dictionary lookup means the key is absent. -/
lemma findSig_eq_none : ∀ {d : List (Sig × Nat)} {s : Sig},
    findSig d s = none ↔ s ∉ dictKeys d := by
  intro d
  induction d with
  | nil => intro s; simp [findSig, dictKeys]
  | cons p t ih =>
    intro s
    obtain ⟨a, b⟩ := p
    rw [findSig]
    by_cases ha : a = s
    · subst ha
      simp [dictKeys]
    · rw [if_neg ha]
      simp [dictKeys, ha, Ne.symm ha]
      simpa [dictKeys] using @ih s

/-- A cached binding survives appending further entries. -/
lemma findSig_append_left : ∀ {d : List (Sig × Nat)} {s : Sig} {k : Nat}
    (e : List (Sig × Nat)), findSig d s = some k → findSig (d ++ e) s = some k := by
  intro d
  induction d with
  | nil => intro s k e h; simp [findSig] at h
  | cons p t ih =>
    intro s k e h
    obtain ⟨a, b⟩ := p
    rw [findSig] at h
    rw [List.cons_append, findSig]
    by_cases ha : a = s
    · rwa [if_pos ha] at h ⊢
    · rw [if_neg ha] at h ⊢
      exact ih e h

/-- Appending a fresh binding makes its key found. -/
lemma findSig_append_self : ∀ {d : List (Sig × Nat)} {s : Sig} (k : Nat),
    findSig d s = none → findSig (d ++ [(s, k)]) s = some k := by
  intro d
  induction d with
  | nil => intro s k h; simp [findSig]
  | cons p t ih =>
    intro s k h
    obtain ⟨a, b⟩ := p
    rw [findSig] at h
    rw [List.cons_append, findSig]
    by_cases ha : a = s
    · rw [if_pos ha] at h
      cases h
    · rw [if_neg ha] at h ⊢
      exact ih k h

/-- `countNew` depends on the known keys only through membership. -/
lemma countNew_congr : ∀ (l : List Sig) {k1 k2 : List Sig},
    (∀ x, x ∈ k1 ↔ x ∈ k2) → countNew k1 l = countNew k2 l := by
  intro l
  induction l with
  | nil => intro k1 k2 _; rfl
  | cons s t ih =>
    intro k1 k2 h
    rw [countNew, countNew]
    by_cases hs : s ∈ k1
    · rw [if_pos hs, if_pos ((h s).mp hs)]
      exact ih h
    · rw [if_neg hs, if_neg (fun c => hs ((h s).mpr c))]
      exact congrArg (· + 1) (@ih (s :: k1) (s :: k2) (fun x => by simp [h x]))

/-- `countNew` counts the distinct unseen signatures: it is the size of
the set difference between the trace's signatures and the known keys. -/
lemma countNew_eq_card : ∀ (l : List Sig) (known : List Sig),
    countNew known l = (l.toFinset \ known.toFinset).card := by
  intro l
  induction l with
  | nil => intro known; simp [countNew]
  | cons s t ih =>
    intro known
    rw [countNew]
    by_cases hs : s ∈ known
    · rw [if_pos hs, ih known, List.toFinset_cons,
        Finset.insert_sdiff_of_mem _ (List.mem_toFinset.mpr hs)]
    · rw [if_neg hs, ih (s :: known), List.toFinset_cons, List.toFinset_cons,
        Finset.sdiff_insert,
        Finset.insert_sdiff_of_not_mem _ (fun c => hs (List.mem_toFinset.mp c))]
      by_cases hb : s ∈ t.toFinset \ known.toFinset
      · rw [Finset.insert_eq_self.mpr hb, Finset.card_erase_add_one hb]
      · rw [Finset.erase_eq_of_not_mem hb, Finset.card_insert_of_not_mem hb]

/-- On a cache hit, `call_kernel_step` leaves the cache unchanged and
serves the cached handle. -/
lemma call_kernel_step_hit {st : KernelCache} {args : List KernelArg}
    {k : Nat} (h : findSig st.kernel_dict (get_args_hash args) = some k) :
    call_kernel_step st args = (st, k) := by
  simp [call_kernel_step, h]

/-- On a cache miss, `call_kernel_step` compiles: it binds the signature
to the fresh handle, increments the compilation counter, and serves the
fresh handle. -/
lemma call_kernel_step_miss {st : KernelCache} {args : List KernelArg}
    (h : findSig st.kernel_dict (get_args_hash args) = none) :
    call_kernel_step st args
      = (⟨st.kernel_dict ++ [(get_args_hash args, st.n_compiles)],
          st.n_compiles + 1⟩, st.n_compiles) := by
  simp [call_kernel_step, h]

/-- Extending a cache with a fresh binding for an absent key preserves the
cache invariant. -/
lemma CacheInv_extend {st : KernelCache} (hInv : CacheInv st) {s : Sig}
    (hs : findSig st.kernel_dict s = none) :
    CacheInv ⟨st.kernel_dict ++ [(s, st.n_compiles)], st.n_compiles + 1⟩ := by
  obtain ⟨hkeys, hhandles, hbound⟩ := hInv
  have hnotmem : s ∉ dictKeys st.kernel_dict := findSig_eq_none.mp hs
  refine ⟨?_, ?_, ?_⟩
  · rw [dictKeys, List.map_append, List.nodup_append]
    refine ⟨hkeys, List.nodup_singleton _, fun x hx hx2 => ?_⟩
    simp only [List.map_cons, List.map_nil, List.mem_singleton] at hx2
    subst hx2
    exact hnotmem hx
  · rw [List.map_append, List.nodup_append]
    refine ⟨hhandles, List.nodup_singleton _, fun x hx hx2 => ?_⟩
    simp only [List.map_cons, List.map_nil, List.mem_singleton] at hx2
    subst hx2
    obtain ⟨p, hp, hp2⟩ := List.mem_map.mp hx
    exact absurd (hp2 ▸ hbound p hp) (lt_irrefl _)
  · intro p hp
    rcases List.mem_append.mp hp with h1 | h1
    · exact Nat.lt_succ_of_lt (hbound p h1)
    · simp only [List.mem_singleton] at h1
      subst h1
      exact Nat.lt_succ_self _

/-- In a cache satisfying the invariant, two cached lookups agree exactly
when their keys agree: the same signature is always served by the same
handle, and distinct signatures are never served by the same handle. -/
lemma CacheInv_find_inj {st : KernelCache} (hInv : CacheInv st)
    {s1 s2 : Sig} {k1 k2 : Nat}
    (h1 : findSig st.kernel_dict s1 = some k1)
    (h2 : findSig st.kernel_dict s2 = some k2) :
    (s1 = s2 ↔ k1 = k2) := by
  constructor
  · intro he
    subst he
    rw [h1] at h2
    exact Option.some.inj h2
  · intro hk
    subst hk
    have m1 := findSig_mem h1
    have m2 := findSig_mem h2
    have := List.inj_on_of_nodup_map hInv.2.1 m1 m2 rfl
    exact congrArg Prod.fst this

/-- Running a call sequence through the cache preserves the invariant,
never rebinds a cached signature, serves each call with the handle cached
under its signature in the final state, and performs exactly one
compilation per distinct signature not already cached. -/
lemma runCalls_spec : ∀ (calls : List (List KernelArg)) (st : KernelCache),
    CacheInv st →
    CacheInv (runCalls st calls).1
    ∧ (∀ s k, findSig st.kernel_dict s = some k →
        findSig (runCalls st calls).1.kernel_dict s = some k)
    ∧ (∀ c k, (c, k) ∈ calls.zip (runCalls st calls).2 →
        findSig (runCalls st calls).1.kernel_dict (get_args_hash c) = some k)
    ∧ (runCalls st calls).1.n_compiles
        = st.n_compiles
            + countNew (dictKeys st.kernel_dict) (calls.map get_args_hash) := by
  intro calls
  induction calls with
  | nil =>
    intro st hInv
    exact ⟨hInv, fun s k h => h, fun c k h => by simp [runCalls] at h,
      by simp [runCalls, countNew]⟩
  | cons c rest ih =>
    intro st hInv
    rcases hfind : findSig st.kernel_dict (get_args_hash c) with _ | k0
    · -- cache miss: compile, then run the rest from the extended cache
      have hstep := call_kernel_step_miss hfind
      obtain ⟨ih1, ih2, ih3, ih4⟩ :=
        ih ⟨st.kernel_dict ++ [(get_args_hash c, st.n_compiles)],
            st.n_compiles + 1⟩ (CacheInv_extend hInv hfind)
      have hrun : runCalls st (c :: rest)
          = ((runCalls ⟨st.kernel_dict ++ [(get_args_hash c, st.n_compiles)],
                st.n_compiles + 1⟩ rest).1,
             st.n_compiles
               :: (runCalls ⟨st.kernel_dict ++ [(get_args_hash c, st.n_compiles)],
                st.n_compiles + 1⟩ rest).2) := by
        show ((runCalls (call_kernel_step st c).1 rest).1,
              (call_kernel_step st c).2
                :: (runCalls (call_kernel_step st c).1 rest).2) = _
        rw [hstep]
      rw [hrun]
      refine ⟨ih1, ?_, ?_, ?_⟩
      · intro s k h
        exact ih2 s k (findSig_append_left _ h)
      · intro c2 k2 h
        simp only [List.zip_cons_cons, List.mem_cons, Prod.mk.injEq] at h
        rcases h with ⟨he1, he2⟩ | h
        · subst he1
          subst he2
          exact ih2 _ _ (findSig_append_self _ hfind)
        · exact ih3 c2 k2 h
      · rw [ih4]
        have hcc : countNew
              (dictKeys (st.kernel_dict ++ [(get_args_hash c, st.n_compiles)]))
              (rest.map get_args_hash)
            = countNew (get_args_hash c :: dictKeys st.kernel_dict)
                (rest.map get_args_hash) :=
          @countNew_congr (rest.map get_args_hash) _ _
            (fun x => by simp [dictKeys, or_comm])
        show st.n_compiles + 1
              + countNew
                  (dictKeys (st.kernel_dict
                    ++ [(get_args_hash c, st.n_compiles)]))
                  (rest.map get_args_hash)
            = st.n_compiles
              + countNew (dictKeys st.kernel_dict)
                  ((c :: rest).map get_args_hash)
        rw [hcc, List.map_cons, countNew, if_neg (findSig_eq_none.mp hfind)]
        omega
    · -- cache hit: the state is unchanged, the cached handle serves
      have hstep := call_kernel_step_hit hfind
      obtain ⟨ih1, ih2, ih3, ih4⟩ := ih st hInv
      have hrun : runCalls st (c :: rest)
          = ((runCalls st rest).1, k0 :: (runCalls st rest).2) := by
        show ((runCalls (call_kernel_step st c).1 rest).1,
              (call_kernel_step st c).2
                :: (runCalls (call_kernel_step st c).1 rest).2) = _
        rw [hstep]
      rw [hrun]
      refine ⟨ih1, ih2, ?_, ?_⟩
      · intro c2 k2 h
        simp only [List.zip_cons_cons, List.mem_cons, Prod.mk.injEq] at h
        rcases h with ⟨he1, he2⟩ | h
        · subst he1
          subst he2
          exact ih2 _ _ hfind
        · exact ih3 c2 k2 h
      · rw [ih4, List.map_cons, countNew]
        have hmem : get_args_hash c ∈ dictKeys st.kernel_dict :=
          List.mem_map.mpr ⟨(get_args_hash c, k0), findSig_mem hfind, rfl⟩
        rw [if_pos hmem]

/-- C1: for every finite sequence of invocations of one decorated
computation through its kernel specialization cache, starting from the
fresh cache: two calls whose arguments have identical signatures are
served by the same compiled kernel handle, two calls whose signatures
differ (in particular in element type or rank) are never served by the
same handle, and any call sequence using exactly two distinct argument
signatures performs exactly 2 underlying compilations, regardless of call
count or order. -/
theorem kernel_cache_spec (calls : List (List KernelArg)) :
    (∀ c1 k1 c2 k2,
        (c1, k1) ∈ calls.zip (runCalls initCache calls).2 →
        (c2, k2) ∈ calls.zip (runCalls initCache calls).2 →
        (get_args_hash c1 = get_args_hash c2 ↔ k1 = k2))
    ∧ (∀ s1 s2 : Sig, s1 ≠ s2 →
        (∀ c ∈ calls, get_args_hash c = s1 ∨ get_args_hash c = s2) →
        (∃ c ∈ calls, get_args_hash c = s1) →
        (∃ c ∈ calls, get_args_hash c = s2) →
        (runCalls initCache calls).1.n_compiles = 2) := by
  have hInv0 : CacheInv initCache :=
    ⟨List.nodup_nil, List.nodup_nil, fun p hp => by simp [initCache] at hp⟩
  obtain ⟨hInv, hstab, hserved, hcount⟩ := runCalls_spec calls initCache hInv0
  constructor
  · intro c1 k1 c2 k2 m1 m2
    exact CacheInv_find_inj hInv (hserved c1 k1 m1) (hserved c2 k2 m2)
  · intro s1 s2 hne hall hex1 hex2
    rw [hcount]
    have hset : (calls.map get_args_hash).toFinset = ({s1, s2} : Finset Sig) := by
      ext x
      simp only [List.mem_toFinset, List.mem_map, Finset.mem_insert,
        Finset.mem_singleton]
      constructor
      · rintro ⟨c, hc, rfl⟩
        exact hall c hc
      · rintro (rfl | rfl)
        · obtain ⟨c, hc, he⟩ := hex1
          exact ⟨c, hc, he⟩
        · obtain ⟨c, hc, he⟩ := hex2
          exact ⟨c, hc, he⟩
    show initCache.n_compiles
        + countNew (dictKeys initCache.kernel_dict) (calls.map get_args_hash) = 2
    rw [countNew_eq_card, hset]
    show 0 + (({s1, s2} : Finset Sig) \ (dictKeys ([] : List (Sig × Nat))).toFinset).card = 2
    rw [Nat.zero_add]
    have : (dictKeys ([] : List (Sig × Nat))).toFinset = (∅ : Finset Sig) := rfl
    rw [this, Finset.sdiff_empty, Finset.card_pair hne]

/-- Witness for C1 at the concrete call sequence `[[argA], [argB], [argA]]`
(two distinct signatures: a float scalar and a rank-1 float64 array): the
first and second calls have distinct signatures exactly as their serving
handles 0 and 1 differ, and the whole sequence performs exactly 2
compilations. -/
theorem kernel_cache_spec_witness :
    ((get_args_hash [argA] = get_args_hash [argB]) ↔ ((0 : Nat) = 1))
    ∧ (runCalls initCache [[argA], [argB], [argA]]).1.n_compiles = 2 :=
  ⟨(kernel_cache_spec [[argA], [argB], [argA]]).1 [argA] 0 [argB] 1
      (by decide) (by decide),
   (kernel_cache_spec [[argA], [argB], [argA]]).2
      [SigItem.ty .pfloat] [SigItem.dt .float64, SigItem.dim 1]
      (by decide) (by decide) (by decide) (by decide)⟩

/-- C7 counterexample: a call whose only argument is of unrecognized kind
(a Python dict) does not fail with an invalid-argument error before
compilation: the invocation returns successfully, having hashed the
argument's type into the signature and performed one compilation
(`n_compiles = 1` in the returned state). -/
theorem call_kernel_no_validation_counterexample :
    call_kernel initCache [1] [1] [badArg]
      = .ok (⟨[([SigItem.ty (.other "dict")], 0)], 1⟩,
             ⟨0, [1], [1], [.scalarVal ⟨.other "dict", 0⟩]⟩) := rfl

/-- C7 amended: no up-front validation of argument kinds is performed.
Every invocation — whatever the kinds of its arguments — returns
successfully from the wrapper itself, with the state and launch produced
by the cache-consulting core, and a compilation is attempted exactly when
the signature is not yet cached; an unsupported argument type could only
surface as a failure of the external JIT compiler during that compilation,
never as an invalid-argument error raised before it. -/
theorem call_kernel_no_precheck (st : KernelCache) (bpg tpb : List Nat)
    (args : List KernelArg) :
    call_kernel st bpg tpb args
      = .ok ((call_kernel_step st args).1,
             ⟨(call_kernel_step st args).2, bpg, tpb,
              prepare_kernel_args args⟩)
    ∧ (call_kernel_step st args).1.n_compiles
        = (if (findSig st.kernel_dict (get_args_hash args)).isSome
           then st.n_compiles else st.n_compiles + 1) := by
  refine ⟨rfl, ?_⟩
  rcases hfind : findSig st.kernel_dict (get_args_hash args) with _ | k0
  · rw [call_kernel_step_miss hfind]
    simp
  · rw [call_kernel_step_hit hfind]
    simp
